import Mathlib

/-!
Verification of the Lightweight-Chat-App-No-Auth repository.

The presentation layer (React `ChatRoom` component and the Socket.IO client
wrapper) is embedded shallowly: JavaScript strings become `List Char`,
JavaScript string truthiness becomes emptiness tests, React state updates
become functional record updates, and `socket.emit` calls become an explicit
list of emitted transport events returned alongside the new state.

The server-side membership core (Flask-SocketIO `server/app.py` /
`server/chat_events.py`) is not present in the repository snapshot; it is
modelled from the design document (sections 4.1-4.3: Connection Registry,
Room Table, Membership Coordinator).
-/

namespace ChatApp

/-- JavaScript strings, modelled as lists of characters. -/
abbrev JStr := List Char

/-- JavaScript `String.prototype.trim`: drop whitespace from both ends. -/
def jsTrim (s : JStr) : JStr :=
  ((s.dropWhile Char.isWhitespace).reverse.dropWhile Char.isWhitespace).reverse

/-- JavaScript truthiness of a value that is either a string or
`undefined`/`null` (`none`): only a defined, non-empty string is truthy. -/
def jsTruthyO (o : Option JStr) : Bool :=
  match o with
  | none => false
  | some s => !s.isEmpty

/-! ### Constant strings appearing in the source -/

def devStr : JStr := "development".toList

def port8080 : JStr := "8080".toList

def localhost5000 : JStr := "http://localhost:5000".toList

def chatKey : JStr := "chatUsername".toList

def userTag : JStr := "User_".toList

/-! ### Basic lemmas about `jsTrim` -/

theorem dropWhile_length_le (p : Char → Bool) (l : List Char) :
    (l.dropWhile p).length ≤ l.length := by
  induction l with
  | nil => simp
  | cons a t ih =>
    by_cases h : p a
    · simp only [List.dropWhile_cons, h, if_true]
      exact Nat.le_succ_of_le ih
    · simp [List.dropWhile_cons, h]

theorem dropWhile_idem (p : Char → Bool) (l : List Char) :
    (l.dropWhile p).dropWhile p = l.dropWhile p := by
  induction l with
  | nil => simp
  | cons a t ih =>
    by_cases h : p a
    · simpa [List.dropWhile_cons, h] using ih
    · simp [List.dropWhile_cons, h]

theorem jsTrim_length_le (s : JStr) : (jsTrim s).length ≤ s.length := by
  unfold jsTrim
  calc (((s.dropWhile Char.isWhitespace).reverse.dropWhile
            Char.isWhitespace).reverse).length
      = ((s.dropWhile Char.isWhitespace).reverse.dropWhile
            Char.isWhitespace).length := by simp
    _ ≤ (s.dropWhile Char.isWhitespace).reverse.length :=
        dropWhile_length_le _ _
    _ = (s.dropWhile Char.isWhitespace).length := by simp
    _ ≤ s.length := dropWhile_length_le _ _

theorem dropWhile_eq_self_of_front (p : Char → Bool) (l : List Char)
    (h : l.dropWhile p = l) : ∀ m : JStr, m <+: l → m.dropWhile p = m := by
  intro m hm
  cases m with
  | nil => simp
  | cons a t =>
    obtain ⟨k, hk⟩ := hm
    have hl : l = a :: (t ++ k) := by rw [← hk]; simp
    have hpa : ¬ p a = true := by
      intro hpa
      rw [hl] at h
      simp only [List.dropWhile_cons, hpa, if_true] at h
      have := dropWhile_length_le p (t ++ k)
      rw [h] at this
      simp at this
    simp [List.dropWhile_cons, hpa]

theorem jsTrim_idem (s : JStr) : jsTrim (jsTrim s) = jsTrim s := by
  set m := s.dropWhile Char.isWhitespace with hm
  have hfront : m.dropWhile Char.isWhitespace = m := dropWhile_idem _ _
  have htrim : jsTrim s = (m.reverse.dropWhile Char.isWhitespace).reverse := rfl
  have hsuffix : m.reverse.dropWhile Char.isWhitespace <:+ m.reverse :=
    List.dropWhile_suffix _
  have hpre : (m.reverse.dropWhile Char.isWhitespace).reverse <+: m := by
    have h2 := List.reverse_prefix.mpr hsuffix
    simpa using h2
  have hfront2 : (jsTrim s).dropWhile Char.isWhitespace = jsTrim s := by
    rw [htrim]
    exact dropWhile_eq_self_of_front _ m hfront _ hpre
  have hrev : (jsTrim s).reverse = m.reverse.dropWhile Char.isWhitespace := by
    rw [htrim, List.reverse_reverse]
  show ((((jsTrim s).dropWhile Char.isWhitespace).reverse).dropWhile
      Char.isWhitespace).reverse = jsTrim s
  rw [hfront2, hrev, dropWhile_idem, ← hrev, List.reverse_reverse]

/-! ### Client data model (src client `ChatRoom` component) -/

/-- A message entry as stored in `messagesByRoom` by the `ChatRoom` component.
`isOwn`/`isSystem` default to `false`, matching a JavaScript object in which
the key is absent (absent key reads as `undefined`, which is falsy). -/
structure Msg where
  id : JStr
  message : JStr
  sid : JStr
  username : JStr
  timestamp : JStr
  isOwn : Bool := false
  isSystem : Bool := false
deriving DecidableEq

/-- Payload of an incoming `message` socket event, as read by `handleMessage`.
`username` is `Option` because the field may be absent (`data.username ||`
falls back on a generated name when the field is missing or empty). -/
structure MsgData where
  room : JStr
  message : JStr
  sid : JStr
  username : Option JStr
  timestamp : JStr
deriving DecidableEq

/-- Transport events emitted by the component via `socket.emit`. -/
inductive Emit where
  | leave (room : JStr)
  | join (room : JStr)
  | message (room text username : JStr)
deriving DecidableEq

/-- The `ChatRoom` component state relevant to the verified behaviour.
`messagesByRoom` is a JavaScript object keyed by room name: absent keys read
as `none` (`undefined`). -/
structure ClientState where
  currentRoom : JStr
  roomInput : JStr
  messagesByRoom : JStr → Option (List Msg)
  newMessage : JStr
  username : JStr
  isJoining : Bool
  participants : List JStr

/-- `addMessage(room, message)`: appends to `[...(prev[room] || []), message]`. -/
def addMessage (room : JStr) (m : Msg) (s : ClientState) : ClientState :=
  { s with messagesByRoom := fun r =>
      if r = room then some (((s.messagesByRoom room).getD []) ++ [m])
      else s.messagesByRoom r }

/-- The message entry built inside `handleMessage` from an incoming event:
id is `sid + "-" + timestamp`, the username falls back to
`User_` + first 8 chars of the sid, and `isOwn` compares `data.sid` with
`socket.id` (the client's own socket identifier). -/
def mkEntry (selfId : JStr) (d : MsgData) : Msg :=
  { id := d.sid ++ [Char.ofNat 45] ++ d.timestamp
    message := d.message
    sid := d.sid
    username :=
      match d.username with
      | some u => if u.isEmpty then userTag ++ d.sid.take 8 else u
      | none => userTag ++ d.sid.take 8
    timestamp := d.timestamp
    isOwn := decide (d.sid = selfId) }

/-- `handleMessage(data)`: stores the entry only when the event's room is the
currently selected room. -/
def handleMessage (selfId : JStr) (s : ClientState) (d : MsgData) :
    ClientState :=
  if d.room = s.currentRoom then addMessage d.room (mkEntry selfId d) s else s

/-- `joinRoom(roomName)` from the `ChatRoom` component: guard on
`!roomName || !roomName.trim()`, emit `leave` for the old room when it is set
and different, emit `join` for the trimmed room, set `isJoining`, and
initialise the room's message list when the key is absent. Returns the new
state and the emitted transport events in order. -/
def joinRoom (s : ClientState) (roomName : JStr) : ClientState × List Emit :=
  if jsTrim roomName = [] then (s, [])
  else
    let room := jsTrim roomName
    let leaveEvs : List Emit :=
      if s.currentRoom ≠ [] ∧ s.currentRoom ≠ room then [Emit.leave s.currentRoom]
      else []
    let s1 := { s with isJoining := true }
    let s2 :=
      match s1.messagesByRoom room with
      | none =>
        { s1 with messagesByRoom := fun r =>
            if r = room then some [] else s1.messagesByRoom r }
      | some _ => s1
    (s2, leaveEvs ++ [Emit.join room])

/-- `handleRoomSelect(room)`: switches the current room only when `room` is
truthy and differs from the current one. -/
def handleRoomSelect (s : ClientState) (room : JStr) : ClientState :=
  if room ≠ [] ∧ room ≠ s.currentRoom then
    { s with currentRoom := room, roomInput := [] }
  else s

/-- A room selection together with the `useEffect` hook on `[currentRoom]`:
the effect body (`if (isConnected() && currentRoom) joinRoom(currentRoom)`)
re-runs only when `currentRoom` actually changed. -/
def selectRoomStep (connected : Bool) (s : ClientState) (room : JStr) :
    ClientState × List Emit :=
  let s1 := handleRoomSelect s room
  if s1.currentRoom ≠ s.currentRoom then
    if connected ∧ s1.currentRoom ≠ [] then joinRoom s1 s1.currentRoom
    else (s1, [])
  else (s1, [])

/-- `handleSendMessage`: guard `!newMessage.trim() || !currentRoom ||
!isConnected()`, then emit the trimmed draft with the current room and
username, and clear the draft. -/
def handleSendMessage (connected : Bool) (s : ClientState) :
    ClientState × List Emit :=
  if jsTrim s.newMessage = [] ∨ s.currentRoom = [] ∨ connected = false then
    (s, [])
  else
    ({ s with newMessage := [] },
      [Emit.message s.currentRoom (jsTrim s.newMessage) s.username])

/-! ### Username handling (generated names and localStorage persistence) -/

/-- Character for a base-36 digit, as produced by `Number.prototype.toString(36)`. -/
def base36Char (d : Fin 36) : Char :=
  if d.val < 10 then Char.ofNat (48 + d.val) else Char.ofNat (97 + d.val - 10)

/-- Whether a character is a base-36 digit character (`0`-`9` or `a`-`z`). -/
def isBase36 (c : Char) : Bool :=
  (48 ≤ c.toNat && c.toNat ≤ 57) || (97 ≤ c.toNat && c.toNat ≤ 122)

/-- Models `Math.random().toString(36).substr(2, 6)`. `digits` is the base-36
fractional expansion of the random double as printed by `toString(36)`
(trailing zeros omitted, so the expansion may have fewer than 6 digits —
e.g. `Math.random() = 0.5` prints as `"0.i"`). `substr(2, 6)` keeps at most
the first 6 fractional digits. -/
def genTail (digits : List (Fin 36)) : JStr :=
  (digits.take 6).map base36Char

/-- The username input's `onChange` handler: the new username is the trimmed
input, or a generated `User_` placeholder when the trimmed input is empty;
the result is written to `localStorage` under key `chatUsername`. Returns the
new username and the list of localStorage writes performed. -/
def usernameOnChange (inputVal : JStr) (tail : JStr) :
    JStr × List (JStr × JStr) :=
  let newUsername := if (jsTrim inputVal).isEmpty then userTag ++ tail
    else jsTrim inputVal
  (newUsername, [(chatKey, newUsername)])

/-- The username initialisation effect: read `localStorage.getItem`
(`none` models `null`); a truthy saved name is restored with no write,
otherwise a generated name is stored to `localStorage`. -/
def usernameInitEffect (saved : Option JStr) (tail : JStr) :
    JStr × List (JStr × JStr) :=
  if jsTruthyO saved then (saved.getD [], [])
  else (userTag ++ tail, [(chatKey, userTag ++ tail)])

/-! ### `getApiUrl` (socket wrapper module) -/

/-- `getApiUrl` from the socket wrapper: environment variables are
string-or-undefined; `process.env.REACT_APP_API_URL` is used when truthy,
next the window origin when `NODE_ENV === 'development'` and the window
location port is `'8080'`, else the fallback expression
`process.env.REACT_APP_API_URL || 'http://localhost:5000'` as written. -/
def getApiUrl (envApiUrl nodeEnv : Option JStr) (locPort locOrigin : JStr) :
    JStr :=
  if jsTruthyO envApiUrl then envApiUrl.getD []
  else if nodeEnv = some devStr ∧ locPort = port8080 then locOrigin
  else if jsTruthyO envApiUrl then envApiUrl.getD [] else localhost5000

/-! ### Server-side membership core -/

/-- Modelled from the spec: the server-side (Connection Registry, Room Table)
pair of sections 4.1-4.2 — the Flask-SocketIO server sources are not in the
repository snapshot. `registry c = none` means `c` is unregistered;
`registry c = some none` means registered with no current room;
`registry c = some (some r)` means registered with current room `r`.
`member r c` is the Room Table: whether `c` is in room `r`'s member set. -/
structure CoreState where
  registry : Nat → Option (Option JStr)
  member : JStr → Nat → Bool

/-- Modelled from the spec: the inbound operations driving the Membership
Coordinator (section 4.3). `leave` carries no room because the coordinator
uses the connection's actual current room (section 6: the room argument of a
`leave` event is advisory). -/
inductive CoreOp where
  | register (c : Nat)
  | join (c : Nat) (room : JStr)
  | leave (c : Nat)
  | disconnect (c : Nat)

/-- Point update of the registry map. -/
def setReg (f : Nat → Option (Option JStr)) (c : Nat)
    (v : Option (Option JStr)) : Nat → Option (Option JStr) :=
  fun x => if x = c then v else f x

/-- Point update of the room-membership table. -/
def setMem (m : JStr → Nat → Bool) (r : JStr) (c : Nat) (b : Bool) :
    JStr → Nat → Bool :=
  fun r2 c2 => if r2 = r ∧ c2 = c then b else m r2 c2

/-- Modelled from the spec: one Membership Coordinator transition
(section 4.3). `register` fails (unchanged state) on a duplicate; `join`
rejects an empty-after-trim room name and operations from unregistered
connections, is a no-op when already in the target room, and otherwise
performs the atomic leave-old/join-new switch; `leave` and `disconnect`
clear membership, `disconnect` additionally unregisters. -/
def coreStep (s : CoreState) (op : CoreOp) : CoreState :=
  match op with
  | CoreOp.register c =>
    match s.registry c with
    | some _ => s
    | none => { s with registry := setReg s.registry c (some none) }
  | CoreOp.join c room =>
    if jsTrim room = [] then s
    else
      match s.registry c with
      | none => s
      | some none =>
        { registry := setReg s.registry c (some (some room))
          member := setMem s.member room c true }
      | some (some r0) =>
        if r0 = room then s
        else
          { registry := setReg s.registry c (some (some room))
            member := setMem (setMem s.member r0 c false) room c true }
  | CoreOp.leave c =>
    match s.registry c with
    | some (some r0) =>
      { registry := setReg s.registry c (some none)
        member := setMem s.member r0 c false }
    | _ => s
  | CoreOp.disconnect c =>
    match s.registry c with
    | some (some r0) =>
      { registry := setReg s.registry c none
        member := setMem s.member r0 c false }
    | some none => { s with registry := setReg s.registry c none }
    | none => s

/-- The initial core state: no registered connections, no room members. -/
def initCore : CoreState :=
  { registry := fun _ => none, member := fun _ _ => false }

/-- Run a sequence of inbound operations from the initial state. -/
def runCore (ops : List CoreOp) : CoreState :=
  ops.foldl coreStep initCore

/-- The single-room membership invariant (section 3 / section 8): the
registry records `r` as `c`'s current room iff `c` is in room `r`'s member
set. -/
def coreInv (s : CoreState) : Prop :=
  ∀ c r, s.registry c = some (some r) ↔ s.member r c = true

theorem coreInv_init : coreInv initCore := by
  intro c r
  simp [initCore]

theorem coreInv_step (s : CoreState) (op : CoreOp) (h : coreInv s) :
    coreInv (coreStep s op) := by
  intro c r
  cases op with
  | register c0 =>
    simp only [coreStep]
    cases hreg : s.registry c0 with
    | some v => exact h c r
    | none =>
      simp only [setReg]
      by_cases hc : c = c0
      · subst hc
        rw [if_pos rfl]
        constructor
        · intro hcontra; exact absurd hcontra (by simp)
        · intro hmem
          exact absurd ((h c r).mpr hmem) (by rw [hreg]; simp)
      · rw [if_neg hc]; exact h c r
  | join c0 room =>
    simp only [coreStep]
    by_cases htrim : jsTrim room = []
    · rw [if_pos htrim]; exact h c r
    rw [if_neg htrim]
    cases hreg : s.registry c0 with
    | none => exact h c r
    | some cur =>
      cases cur with
      | none =>
        simp only [setReg, setMem]
        by_cases hc : c = c0
        · subst hc
          rw [if_pos rfl]
          by_cases hr : r = room
          · subst hr; simp
          · rw [if_neg (by intro hand; exact hr hand.1)]
            constructor
            · intro hcontra
              exact absurd (Option.some.inj (Option.some.inj hcontra)).symm hr
            · intro hmem
              exact absurd ((h c r).mpr hmem) (by rw [hreg]; simp)
        · rw [if_neg hc,
            if_neg (by intro hand; exact hc hand.2)]
          exact h c r
      | some r0 =>
        dsimp only
        by_cases hr0 : r0 = room
        · rw [if_pos hr0]; exact h c r
        rw [if_neg hr0]
        simp only [setReg, setMem]
        by_cases hc : c = c0
        · subst hc
          rw [if_pos rfl]
          by_cases hr : r = room
          · subst hr; simp
          · rw [if_neg (by intro hand; exact hr hand.1)]
            by_cases hrr0 : r = r0
            · subst hrr0
              have hr2 : ¬room = r := fun h2 => hr h2.symm
              simp [hr, hr2]
            · rw [if_neg (by intro hand; exact hrr0 hand.1)]
              constructor
              · intro hcontra
                exact absurd (Option.some.inj (Option.some.inj hcontra)).symm hr
              · intro hmem
                have := (h c r).mpr hmem
                rw [hreg] at this
                exact absurd (Option.some.inj (Option.some.inj this)).symm hrr0
        · rw [if_neg hc, if_neg (by intro hand; exact hc hand.2),
            if_neg (by intro hand; exact hc hand.2)]
          exact h c r
  | leave c0 =>
    simp only [coreStep]
    cases hreg : s.registry c0 with
    | none => exact h c r
    | some cur =>
      cases cur with
      | none => exact h c r
      | some r0 =>
        simp only [setReg, setMem]
        by_cases hc : c = c0
        · subst hc
          rw [if_pos rfl]
          constructor
          · intro hcontra; exact absurd hcontra (by simp)
          · intro hmem
            by_cases hrr0 : r = r0
            · subst hrr0; simp at hmem
            · rw [if_neg (by intro hand; exact hrr0 hand.1)] at hmem
              have := (h c r).mpr hmem
              rw [hreg] at this
              exact absurd (Option.some.inj (Option.some.inj this)).symm hrr0
        · rw [if_neg hc, if_neg (by intro hand; exact hc hand.2)]
          exact h c r
  | disconnect c0 =>
    simp only [coreStep]
    cases hreg : s.registry c0 with
    | none => exact h c r
    | some cur =>
      cases cur with
      | none =>
        simp only [setReg]
        by_cases hc : c = c0
        · subst hc
          rw [if_pos rfl]
          constructor
          · intro hcontra; exact absurd hcontra (by simp)
          · intro hmem
            exact absurd ((h c r).mpr hmem) (by rw [hreg]; simp)
        · rw [if_neg hc]; exact h c r
      | some r0 =>
        simp only [setReg, setMem]
        by_cases hc : c = c0
        · subst hc
          rw [if_pos rfl]
          constructor
          · intro hcontra; exact absurd hcontra (by simp)
          · intro hmem
            by_cases hrr0 : r = r0
            · subst hrr0; simp at hmem
            · rw [if_neg (by intro hand; exact hrr0 hand.1)] at hmem
              have := (h c r).mpr hmem
              rw [hreg] at this
              exact absurd (Option.some.inj (Option.some.inj this)).symm hrr0
        · rw [if_neg hc, if_neg (by intro hand; exact hc hand.2)]
          exact h c r

theorem coreInv_foldl (ops : List CoreOp) (s : CoreState) (h : coreInv s) :
    coreInv (ops.foldl coreStep s) := by
  induction ops generalizing s with
  | nil => exact h
  | cons op rest ih => exact ih (coreStep s op) (coreInv_step s op h)

/-! ### Concrete sample data for witnesses -/

def mainRoom : JStr := "main".toList

def generalRoom : JStr := "general".toList

def sampleName : JStr := "bob".toList

def sampleSid : JStr := "abc123xy".toList

def sampleUrl : JStr := "https://api.example.com".toList

/-- A concrete component state: current room `main`, a draft message,
no stored messages. -/
def sampleState : ClientState :=
  { currentRoom := mainRoom
    roomInput := []
    messagesByRoom := fun _ => none
    newMessage := "hi".toList
    username := "alice".toList
    isJoining := false
    participants := [] }

/-- A concrete incoming message event addressed to room `random`. -/
def sampleData : MsgData :=
  { room := "random".toList
    message := "yo".toList
    sid := sampleSid
    username := some sampleName
    timestamp := "t1".toList }

/-- A concrete incoming message event addressed to room `main`. -/
def sampleData2 : MsgData :=
  { room := mainRoom
    message := "yo".toList
    sid := sampleSid
    username := some sampleName
    timestamp := "t1".toList }

/-! ### Claims -/

/-- C1: for every connection c and room r, at every instant of every
execution (every sequence of register/join/leave/disconnect operations run
from the initial state), the Connection Registry records r as c's current
room iff c is in the Room Table's member set for r. -/
theorem claim_C1_single_room_invariant (ops : List CoreOp) :
    coreInv (runCore ops) :=
  coreInv_foldl ops initCore coreInv_init

/-- C2: when `joinRoom(r)` is called with `trim(r)` non-empty and different
from the (non-empty) currently selected room, exactly two transport events
are emitted, in order: `leave {room: currentRoom}` then `join {room:
trim(r)}`; when `trim(r)` equals the current room no `leave` is emitted. -/
theorem claim_C2_room_switch_two_events :
    (∀ (s : ClientState) (r : JStr), jsTrim r ≠ [] → s.currentRoom ≠ [] →
        jsTrim r ≠ s.currentRoom →
        (joinRoom s r).2 = [Emit.leave s.currentRoom, Emit.join (jsTrim r)]) ∧
    (∀ (s : ClientState) (r : JStr), jsTrim r = s.currentRoom →
        ∀ c, Emit.leave c ∉ (joinRoom s r).2) := by
  constructor
  · intro s r h1 h2 h3
    simp only [joinRoom, if_neg h1]
    rw [if_pos ⟨h2, fun he => h3 he.symm⟩]
    rfl
  · intro s r hEq c
    by_cases h0 : jsTrim r = []
    · simp [joinRoom, h0]
    · simp only [joinRoom, if_neg h0]
      rw [if_neg (by intro hand; exact hand.2 hEq.symm)]
      simp

theorem claim_C2_witness :
    (joinRoom sampleState generalRoom).2 =
      [Emit.leave mainRoom, Emit.join (jsTrim generalRoom)] :=
  claim_C2_room_switch_two_events.1 sampleState generalRoom (by decide)
    (by decide) (by decide)

/-- C9: an incoming `message` event whose room differs from the currently
selected room leaves the component state — in particular `messagesByRoom` —
entirely unchanged: the message is dropped, not stored under its own room. -/
theorem claim_C9_foreign_room_message_dropped (selfId : JStr)
    (s : ClientState) (d : MsgData) (h : d.room ≠ s.currentRoom) :
    handleMessage selfId s d = s := by
  unfold handleMessage
  rw [if_neg h]

theorem claim_C9_witness :
    handleMessage sampleSid sampleState sampleData = sampleState :=
  claim_C9_foreign_room_message_dropped sampleSid sampleState sampleData
    (by decide)

/-- C10: selecting the room that is already current is a no-op: the state is
unchanged and (since `currentRoom` does not change, the join-on-change
effect does not re-fire) no transport events are emitted. -/
theorem claim_C10_reselect_current_room_noop (connected : Bool)
    (s : ClientState) :
    selectRoomStep connected s s.currentRoom = (s, []) := by
  have h1 : handleRoomSelect s s.currentRoom = s := by
    unfold handleRoomSelect
    rw [if_neg (by intro hand; exact hand.2 rfl)]
  unfold selectRoomStep
  rw [h1]
  simp

/-- C5: every `message` event emitted by `handleSendMessage` carries the
trimmed draft (trim-stable, non-empty, 1-500 chars given the input's
`maxLength={500}` bound on the draft), the currently selected room and the
current username; with an empty-after-trim draft, no selected room, or a
disconnected socket, nothing is emitted. -/
theorem claim_C5_send_message_validated :
    (∀ (c : Bool) (s : ClientState), jsTrim s.newMessage ≠ [] →
        s.currentRoom ≠ [] → c = true → s.newMessage.length ≤ 500 →
        (handleSendMessage c s).2 =
            [Emit.message s.currentRoom (jsTrim s.newMessage) s.username] ∧
          jsTrim (jsTrim s.newMessage) = jsTrim s.newMessage ∧
          1 ≤ (jsTrim s.newMessage).length ∧
          (jsTrim s.newMessage).length ≤ 500) ∧
    (∀ (c : Bool) (s : ClientState),
        jsTrim s.newMessage = [] ∨ s.currentRoom = [] ∨ c = false →
        (handleSendMessage c s).2 = []) := by
  constructor
  · intro c s h1 h2 h3 h4
    refine ⟨?_, jsTrim_idem s.newMessage, ?_, ?_⟩
    · unfold handleSendMessage
      rw [if_neg ?_]
      intro hor
      rcases hor with ha | hb | hc
      · exact h1 ha
      · exact h2 hb
      · rw [h3] at hc; exact Bool.noConfusion hc
    · exact List.length_pos.mpr h1
    · exact le_trans (jsTrim_length_le s.newMessage) h4
  · intro c s hor
    unfold handleSendMessage
    rw [if_pos hor]

theorem claim_C5_witness :
    (handleSendMessage true sampleState).2 =
        [Emit.message sampleState.currentRoom (jsTrim sampleState.newMessage)
          sampleState.username] ∧
      jsTrim (jsTrim sampleState.newMessage) = jsTrim sampleState.newMessage ∧
      1 ≤ (jsTrim sampleState.newMessage).length ∧
      (jsTrim sampleState.newMessage).length ≤ 500 :=
  claim_C5_send_message_validated.1 true sampleState (by decide) (by decide)
    rfl (by decide)

/-- C6: a `join` event is only ever emitted with a trim-stable, non-empty
room name of at most 50 characters (the call sites bound the raw name by 50:
the room input has `maxLength={50}` and the fixed room list is short);
`joinRoom` on an empty-after-trim name emits nothing and leaves the state
unchanged. -/
theorem claim_C6_join_event_room_valid :
    (∀ (s : ClientState) (r : JStr), jsTrim r = [] → joinRoom s r = (s, [])) ∧
    (∀ (s : ClientState) (r rm : JStr), r.length ≤ 50 →
        Emit.join rm ∈ (joinRoom s r).2 →
        jsTrim rm = rm ∧ rm ≠ [] ∧ rm.length ≤ 50) := by
  constructor
  · intro s r h
    unfold joinRoom
    rw [if_pos h]
  · intro s r rm hlen hmem
    by_cases h0 : jsTrim r = []
    · simp [joinRoom, h0] at hmem
    · simp only [joinRoom, if_neg h0] at hmem
      have hrm : rm = jsTrim r := by
        by_cases hcond : s.currentRoom ≠ [] ∧ s.currentRoom ≠ jsTrim r
        · rw [if_pos hcond] at hmem
          simp at hmem
          exact hmem
        · rw [if_neg hcond] at hmem
          simp at hmem
          exact hmem
      subst hrm
      exact ⟨jsTrim_idem r, h0, le_trans (jsTrim_length_le r) hlen⟩

theorem claim_C6_witness :
    jsTrim (jsTrim generalRoom) = jsTrim generalRoom ∧ jsTrim generalRoom ≠ [] ∧
      (jsTrim generalRoom).length ≤ 50 :=
  claim_C6_join_event_room_valid.2 sampleState generalRoom (jsTrim generalRoom)
    (by decide) (by decide)

/-- C7: a stored incoming message entry is marked `isOwn` exactly when the
event's `sid` equals the client's own socket identifier; the flag is
computed from identifiers only and is unchanged under any change of the
event's username field. -/
theorem claim_C7_own_message_by_sid :
    (∀ (selfId : JStr) (s : ClientState) (d : MsgData),
        d.room = s.currentRoom →
        (handleMessage selfId s d).messagesByRoom d.room =
          some (((s.messagesByRoom d.room).getD []) ++ [mkEntry selfId d])) ∧
    (∀ (selfId : JStr) (d : MsgData),
        ((mkEntry selfId d).isOwn = true ↔ d.sid = selfId)) ∧
    (∀ (selfId : JStr) (d : MsgData) (u : Option JStr),
        (mkEntry selfId { d with username := u }).isOwn =
          (mkEntry selfId d).isOwn) := by
  refine ⟨?_, ?_, ?_⟩
  · intro selfId s d h
    unfold handleMessage
    rw [if_pos h]
    unfold addMessage
    simp
  · intro selfId d
    simp [mkEntry]
  · intro selfId d u
    rfl

theorem claim_C7_witness :
    (handleMessage sampleSid sampleState sampleData2).messagesByRoom
        sampleData2.room =
      some (((sampleState.messagesByRoom sampleData2.room).getD []) ++
        [mkEntry sampleSid sampleData2]) :=
  claim_C7_own_message_by_sid.1 sampleSid sampleState sampleData2 (by decide)

/-- C8: `getApiUrl` is deterministic with the priority: a truthy
`REACT_APP_API_URL` wins outright; else in development with window port
8080 the window origin is returned; else the fallback
`http://localhost:5000`. -/
theorem claim_C8_getApiUrl_priority :
    (∀ (e n : Option JStr) (p o u : JStr), e = some u → u ≠ [] →
        getApiUrl e n p o = u) ∧
    (∀ (e n : Option JStr) (o : JStr), jsTruthyO e = false → n = some devStr →
        getApiUrl e n port8080 o = o) ∧
    (∀ (e n : Option JStr) (p o : JStr), jsTruthyO e = false →
        ¬(n = some devStr ∧ p = port8080) →
        getApiUrl e n p o = localhost5000) := by
  refine ⟨?_, ?_, ?_⟩
  · intro e n p o u he hu
    subst he
    unfold getApiUrl
    rw [if_pos (by simp [jsTruthyO, hu])]
    rfl
  · intro e n o he hn
    unfold getApiUrl
    rw [if_neg (by simp [he]), if_pos ⟨hn, rfl⟩]
  · intro e n p o he hnp
    unfold getApiUrl
    rw [if_neg (by simp [he]), if_neg hnp, if_neg (by simp [he])]

theorem claim_C8_witness :
    getApiUrl (some sampleUrl) (some devStr) port8080 mainRoom = sampleUrl :=
  claim_C8_getApiUrl_priority.1 (some sampleUrl) (some devStr) port8080
    mainRoom sampleUrl rfl (by decide)

/-- C3 counterexample: the username input's `onChange` handler calls
`localStorage.setItem('chatUsername', ...)` — storage that survives the end
of the process — on every call; typing the name `a` performs exactly one
such write, refuting the claim that no username-handling operation writes
the username to storage surviving the process. -/
theorem claim_C3_counterexample :
    (usernameOnChange ['a'] []).2 = [(chatKey, ['a'])] ∧
      (usernameOnChange ['a'] []).2 ≠ [] := by
  decide

/-- C3 amended: the client username is persisted to browser `localStorage`
under the key `chatUsername`: every `onChange` writes the resulting
username, the initialisation effect writes a freshly generated username
when no saved one exists, and restores a saved non-empty username without
writing. -/
theorem claim_C3_username_persisted_to_storage :
    (∀ (s tail : JStr),
        (usernameOnChange s tail).2 =
          [(chatKey, (usernameOnChange s tail).1)]) ∧
    (∀ tail : JStr, usernameInitEffect none tail =
        (userTag ++ tail, [(chatKey, userTag ++ tail)])) ∧
    (∀ (u tail : JStr), u ≠ [] →
        usernameInitEffect (some u) tail = (u, [])) := by
  refine ⟨?_, ?_, ?_⟩
  · intro s tail
    rfl
  · intro tail
    rfl
  · intro u tail hu
    unfold usernameInitEffect
    rw [if_pos (by simp [jsTruthyO, hu])]
    simp

theorem claim_C3_witness :
    usernameInitEffect (some sampleName) [] = (sampleName, []) :=
  claim_C3_username_persisted_to_storage.2.2 sampleName [] (by decide)

/-- C4 counterexample: `Math.random().toString(36)` omits trailing zeros, so
the fractional expansion can be shorter than 6 digits; for
`Math.random() = 0.5` (base-36 expansion `"0.i"`, i.e. the single digit 18)
the generated placeholder is `User_i` — 6 characters in total, not the
11 characters that `'User_'` followed by exactly 6 base-36 characters would
require. -/
theorem claim_C4_counterexample :
    (usernameOnChange [] (genTail [(18 : Fin 36)])).1 = userTag ++ ['i'] ∧
      (usernameOnChange [] (genTail [(18 : Fin 36)])).1.length = 6 ∧
      ¬(usernameOnChange [] (genTail [(18 : Fin 36)])).1.length = 11 := by
  decide

/-- C4 amended: for an input `s` of at most 20 characters (enforced by the
input's `maxLength={20}`), the stored name is `trim(s)` and has at most 20
characters when `trim(s)` is non-empty; when `s` is empty or
whitespace-only the stored name is `User_` followed by the first
`min(6, k)` base-36 fractional digits of the random value (`k` digits
printed by `toString(36)`) — at most 6 base-36 characters, and exactly 6
whenever the printed expansion has at least 6 digits. -/
theorem claim_C4_display_name_update (s : JStr) (digits : List (Fin 36))
    (hlen : s.length ≤ 20) :
    (jsTrim s ≠ [] →
        (usernameOnChange s (genTail digits)).1 = jsTrim s ∧
        (usernameOnChange s (genTail digits)).1.length ≤ 20) ∧
    (jsTrim s = [] →
        (usernameOnChange s (genTail digits)).1 =
            userTag ++ (digits.take 6).map base36Char ∧
        ((usernameOnChange s (genTail digits)).1.drop 5).length ≤ 6 ∧
        (∀ ch ∈ (usernameOnChange s (genTail digits)).1.drop 5,
          isBase36 ch = true) ∧
        (6 ≤ digits.length →
          ((usernameOnChange s (genTail digits)).1.drop 5).length = 6)) := by
  constructor
  · intro h1
    have hne : (jsTrim s).isEmpty = false := by
      cases hcase : jsTrim s with
      | nil => exact absurd hcase h1
      | cons a t => rfl
    refine ⟨?_, ?_⟩
    · simp [usernameOnChange, hne]
    · simp only [usernameOnChange, hne]
      simp only [Bool.false_eq_true, if_false]
      exact le_trans (jsTrim_length_le s) hlen
  · intro h1
    have hemp : (jsTrim s).isEmpty = true := by rw [h1]; rfl
    have hval : (usernameOnChange s (genTail digits)).1 =
        userTag ++ (digits.take 6).map base36Char := by
      simp [usernameOnChange, hemp, genTail]
    have hdrop : (usernameOnChange s (genTail digits)).1.drop 5 =
        (digits.take 6).map base36Char := by
      rw [hval]
      have h5 : userTag.length = 5 := by decide
      rw [List.drop_append_of_le_length (by rw [h5])]
      have hd5 : userTag.drop 5 = ([] : JStr) := by decide
      rw [hd5, List.nil_append]
    refine ⟨hval, ?_, ?_, ?_⟩
    · rw [hdrop]
      simp only [List.length_map, List.length_take]
      exact min_le_left _ _
    · intro ch hch
      rw [hdrop] at hch
      obtain ⟨d, _, hd⟩ := List.mem_map.mp hch
      have hall : ∀ d2 : Fin 36, isBase36 (base36Char d2) = true := by decide
      rw [← hd]
      exact hall d
    · intro hdig
      rw [hdrop]
      simp only [List.length_map, List.length_take]
      omega

theorem claim_C4_witness :
    (usernameOnChange sampleName (genTail [])).1 = jsTrim sampleName ∧
      (usernameOnChange sampleName (genTail [])).1.length ≤ 20 :=
  (claim_C4_display_name_update sampleName [] (by decide)).1 (by decide)

end ChatApp
